import Mathlib

/-
Verification of the pod-termination coordinator script
(operator/src/main/resources/scripts/stop-server.py).

The script is shallowly embedded as follows.

* The topology detector (`checkCoherenceClusterExist`, `doesCoherenceExist`)
  is embedded as pure functions on `List Char`.  Python's
  `''.join(s.split())` removes every whitespace character, which is
  `stripWS`.  The regular-expression search
  `re.search('<coherence-cluster-system-resource>[\s\S]*?</coherence-cluster-system-resource>', d)`
  is leftmost-shortest matching: the match starts at the first occurrence
  of the opening tag, and the content extends to the first occurrence of
  the closing tag at or after the end of the opening tag (if the first
  opening tag has no closing tag after it, no later one has either, so
  there is no match).  `findSub`/`findFrom` implement exactly this.
  Exogenous failures (unreadable file, an exception raised while the
  config data is processed) are modelled as explicit inputs, since the
  Python `except:` branches catch every exception regardless of origin.

* The safety poller (`waitUntilCoherenceSafe`,
  `waitUntilServiceSafeToShutdown`) and the main connect loop are driven
  by the outside world (MBean queries, connect/shutdown/kill calls that
  may raise).  The world is modelled as an oracle: a finite list of
  events `Ev`, consumed in order, one event per external call.  A run
  over a finite oracle either terminates (the script exits or the
  function returns, with unconsumed oracle suffix) or is still running
  when the oracle is exhausted (`none` / `WaitRes.stuck`).  The main
  `while stayInConnectLoop` loop is additionally indexed by fuel (the
  number of loop iterations allowed); running out of fuel also yields
  `none` ("still running").  Each function returns the list of
  observable actions `Act` it performed, in order.
-/

namespace StopServer

/-- Whitespace characters of Python 2 `str.split()` (space, tab, newline,
carriage return, vertical tab, form feed). -/
def isPySpace (c : Char) : Bool :=
  c = ' ' || c = '\t' || c = '\n' || c = '\r' || c = '\x0b' || c = '\x0c'

/-- The script's `''.join(configData.split())`: drop every whitespace
character. -/
def stripWS (s : List Char) : List Char :=
  s.filter (fun c => !isPySpace c)

/-- Opening tag searched for by `checkCoherenceClusterExist`. -/
def openTag : List Char := "<coherence-cluster-system-resource>".toList

/-- Closing tag searched for by `checkCoherenceClusterExist`. -/
def closeTag : List Char := "</coherence-cluster-system-resource>".toList

/-- The script's `ELEMENT_NAME` constant. -/
def elementName : List Char := "coherence-cluster-system-resource".toList

/-- Does `pat` occur in `s` starting at index `i`? -/
def occursAt (pat s : List Char) (i : Nat) : Bool :=
  pat.isPrefixOf (s.drop i)

/-- Index of the leftmost occurrence of `pat` in `s` (the start position
of a leftmost regular-expression match). -/
def findSub (pat : List Char) : List Char → Option Nat
  | [] => if pat.isPrefixOf ([] : List Char) then some 0 else none
  | c :: rest =>
    if pat.isPrefixOf (c :: rest) then some 0
    else (findSub pat rest).map (· + 1)

/-- Index of the first occurrence of `pat` in `s` at or after `start`. -/
def findFrom (pat s : List Char) (start : Nat) : Option Nat :=
  (findSub pat (s.drop start)).map (· + start)

/-- Embedding of `checkCoherenceClusterExist(configData)` restricted to
its normal (non-raising) execution: strip all whitespace, search for the
first `<coherence-cluster-system-resource> ... </coherence-cluster-system-resource>`
element (leftmost-shortest regular-expression match), and report `true`
iff the match exists and its length minus 5 (one slash plus four angle
brackets) exceeds twice the element-name length, i.e. iff the matched
element has non-empty inner content. -/
def checkCoherenceClusterExist (configData : List Char) : Bool :=
  let spacelessData := stripWS configData
  match findSub openTag spacelessData with
  | none => false
  | some first =>
    match findFrom closeTag spacelessData (first + openTag.length) with
    | none => false
    | some closeIdx =>
      let last := closeIdx + closeTag.length
      decide (2 * elementName.length < last - first - 5)

/-- Result of the attempt to read `config.xml`: the file content, or a
read failure (missing/unreadable file). -/
inductive ReadResult where
  | ok (data : List Char)
  | err
  deriving DecidableEq

/-- The `try`/`except` wrapper inside `checkCoherenceClusterExist`: if an
exogenous exception is raised while the config data is processed
(`procRaises`), the handler returns `True`; otherwise the pure
computation decides. -/
def checkCoherenceClusterExistT (configData : List Char) (procRaises : Bool) : Bool :=
  if procRaises then true else checkCoherenceClusterExist configData

/-- Embedding of `doesCoherenceExist()`: a failure to read the file is
caught and answered with `True`; otherwise the content is passed to
`checkCoherenceClusterExist` (whose own handler also answers `True` on a
processing exception).  No exception escapes to the caller: the function
is total. -/
def doesCoherenceExist (r : ReadResult) (procRaises : Bool) : Bool :=
  match r with
  | ReadResult.err => true
  | ReadResult.ok data => checkCoherenceClusterExistT data procRaises

/-- Python's `str.lower()` on an ASCII string: lower-case every
character. -/
def lowerStr (s : String) : String := String.mk (s.data.map Char.toLower)

/-- Initial force flag: `force = 'true'` iff `shutdown_type.lower() == 'forced'`. -/
def computeForce (shutdownType : String) : String :=
  if lowerStr shutdownType = "forced" then "true" else "false"

/-- Connection-target and force-flag selection of the main script: with a
Coherence cluster the target is the admin endpoint and the force flag is
escalated to `'true'` when the stopped server is the admin server itself;
without a cluster the target is the local server endpoint and the force
flag is left as configured. -/
def selectTarget (cohExists : Bool)
    (adminName serverName proto adminHost adminPort serviceName localPort force0 : String) :
    String × String :=
  if cohExists then
    (proto ++ "://" ++ adminHost ++ ":" ++ adminPort,
     if adminName = serverName then "true" else force0)
  else
    (proto ++ "://" ++ serviceName ++ ":" ++ localPort, force0)

/-- The environment variables read by the main script, in program order. -/
def requiredEnvVars : List String :=
  ["DOMAIN_UID", "ADMIN_NAME", "SERVER_NAME", "DOMAIN_NAME", "DOMAIN_HOME",
   "SERVICE_NAME", "SHUTDOWN_PORT_ARG", "SHUTDOWN_PROTOCOL_ARG",
   "SHUTDOWN_TIMEOUT_ARG", "SHUTDOWN_IGNORE_SESSIONS_ARG",
   "SHUTDOWN_WAIT_FOR_ALL_SESSIONS_ARG", "SHUTDOWN_TYPE_ARG",
   "ADMIN_PORT", "AS_SERVICE_NAME"]

/-- Observable startup actions: environment reads, the error message of
`getEnvVar`, the credential-key file read/decode/write, the config read
of the topology detector, and the first connection attempt. -/
inductive SAct where
  | readEnv (v : String)
  | errMsg (v : String)
  | keyRead
  | keyDecode
  | keyWrite
  | configRead
  | connectCall
  deriving DecidableEq

/-- Sequential `getEnvVar` calls: each missing variable makes the script
print an error naming it and `sys.exit(1)` immediately. -/
def loadVars (env : String → Option String) : List String → List SAct × Bool
  | [] => ([], true)
  | v :: vs =>
    match env v with
    | none => ([SAct.readEnv v, SAct.errMsg v], false)
    | some _ =>
      let r := loadVars env vs
      (SAct.readEnv v :: r.1, r.2)

/-- Startup phase of the main script: read all environment variables in
program order; only if all are present, read and decode the credential
key, write the binary key, read the config for the topology detector and
proceed to the first connection attempt.  Result `some 1` models
`sys.exit(1)`; `none` means the script keeps running. -/
def startup (env : String → Option String) : List SAct × Option Nat :=
  let r := loadVars env requiredEnvVars
  if r.2 then
    (r.1 ++ [SAct.keyRead, SAct.keyDecode, SAct.keyWrite, SAct.configRead,
             SAct.connectCall], none)
  else
    (r.1, some 1)

/-- Oracle events, one per external call made by the script:
`conn ok` answers a `connect(...)` attempt, `dr ok` answers the
`domainRuntime()` call, `qm r` answers `mbs.queryMBeans(...)` (`none` =
the call raised, `some names` = the returned bean list), `ha r` answers
`mbs.getAttribute(objectName, "HAStatus")` (`none` = the call raised,
`some s` = the returned status, itself `Option` since Python may return
`None`), `shut ok` answers the graceful `shutdown(...)` call, and
`nm ok` answers the whole NodeManager fallback (`nmConnect` + `nmKill`). -/
inductive Ev where
  | conn (ok : Bool)
  | dr (ok : Bool)
  | qm (r : Option (List String))
  | ha (r : Option (Option String))
  | shut (ok : Bool)
  | nm (ok : Bool)
  deriving DecidableEq

/-- Observable actions of a run: the connect attempt, the sleeps of the
several retry loops, a completed `queryMBeans` call, a completed
`getAttribute` health query, the return of `waitUntilCoherenceSafe`
(immediately before `cohSafe = True` is assigned), the graceful
`shutdown` call with its outcome, and the NodeManager fallback with its
outcome. -/
inductive Act where
  | connectA
  | sleep1
  | sleep5
  | sleep10
  | queryA
  | healthA
  | safeA
  | shutA (ok : Bool)
  | nmA (ok : Bool)
  deriving DecidableEq

/-- Embedding of `waitUntilServiceSafeToShutdown(objectName)`: poll the
HAStatus attribute of one service.  An exception in the query is caught
inside this very loop ("staying in loop checking for safe"): sleep 10 and
re-query the same service.  `ENDANGERED`: sleep 5 and re-query.  `None`
or any other status: break.  The result is the unconsumed oracle suffix,
or `none` when the oracle ran out (the loop is still running) or the next
event does not answer a health query. -/
def waitServiceEvs : List Ev → List Act × Option (List Ev)
  | Ev.ha none :: rest =>
    (Act.healthA :: Act.sleep10 :: (waitServiceEvs rest).1, (waitServiceEvs rest).2)
  | Ev.ha (some none) :: rest => ([Act.healthA], some rest)
  | Ev.ha (some (some s)) :: rest =>
    if s = "ENDANGERED" then
      (Act.healthA :: Act.sleep5 :: (waitServiceEvs rest).1, (waitServiceEvs rest).2)
    else ([Act.healthA], some rest)
  | _ => ([], none)

/-- The `for serviceBean in beans:` loop of `waitUntilCoherenceSafe`:
wait for each enumerated service in turn. -/
def runBeans : List String → List Ev → List Act × Option (List Ev)
  | [], evs => ([], some evs)
  | _ :: bs, evs =>
    match waitServiceEvs evs with
    | (a, none) => (a, none)
    | (a, some evs') =>
      let r := runBeans bs evs'
      (a ++ r.1, r.2)

/-- The `while (not done):` loop of `waitUntilCoherenceSafe`: an
exception in `queryMBeans` is caught, sleeps 10 and restarts the loop; an
empty (or `None`) bean list sleeps 1 and restarts the loop; a non-empty
bean list is walked service by service, after which `done = True`. -/
def waitCohBody : List Ev → List Act × Option (List Ev)
  | Ev.qm none :: rest =>
    (Act.queryA :: Act.sleep10 :: (waitCohBody rest).1, (waitCohBody rest).2)
  | Ev.qm (some []) :: rest =>
    (Act.queryA :: Act.sleep1 :: (waitCohBody rest).1, (waitCohBody rest).2)
  | Ev.qm (some (b :: bs)) :: rest =>
    let r := runBeans (b :: bs) rest
    (Act.queryA :: r.1, r.2)
  | _ => ([], none)

/-- Outcome of `waitUntilCoherenceSafe()`: the function returned
(`done`), the `domainRuntime()` call raised and the exception propagates
to the caller (`raised`), or the run is still inside the function when
the finite oracle ends (`stuck`). -/
inductive WaitRes where
  | done (rest : List Ev)
  | raised (rest : List Ev)
  | stuck
  deriving DecidableEq

/-- Embedding of `waitUntilCoherenceSafe()`: the `domainRuntime()` call
is outside every `try`, so its exception propagates; afterwards the
polling loop runs (and never raises). -/
def waitCoherence : List Ev → List Act × WaitRes
  | Ev.dr true :: rest =>
    match waitCohBody rest with
    | (a, some evs') => (a, WaitRes.done evs')
    | (a, none) => (a, WaitRes.stuck)
  | Ev.dr false :: rest => ([], WaitRes.raised rest)
  | _ => ([], WaitRes.stuck)

/-- The fallback branch of the main exception handler:
`shutdownUsingNodeManager` followed by `exit()` on success and `exit(2)`
on failure. -/
def runFallback : List Ev → List Act × Option Nat
  | Ev.nm true :: _ => ([Act.nmA true], some 0)
  | Ev.nm false :: _ => ([Act.nmA false], some 2)
  | _ => ([], none)

/-- Embedding of the main `while (stayInConnectLoop):` loop.  `fuel`
bounds the number of loop iterations; `cohSafe` is the script's mutable
flag.  Each iteration: connect; with a Coherence cluster wait until safe
(an exception propagating out of the wait, i.e. from `domainRuntime()`,
goes to the handler), emit `safeA` for `cohSafe = True`, then call
`shutdown`.  The exception handler retries after a 10-unit sleep while
`cohExists and not cohSafe`, and otherwise runs the NodeManager fallback.
Result `some c` is the process exit code; `none` means the run is still
in progress when fuel or oracle runs out. -/
def runMain (cohExists : Bool) : Nat → Bool → List Ev → List Act × Option Nat
  | 0, _, _ => ([], none)
  | Nat.succ fuel, cohSafe, evs =>
    match evs with
    | Ev.conn false :: rest =>
      if cohExists && !cohSafe then
        let r := runMain cohExists fuel cohSafe rest
        (Act.connectA :: Act.sleep10 :: r.1, r.2)
      else
        let r := runFallback rest
        (Act.connectA :: r.1, r.2)
    | Ev.conn true :: rest =>
      if cohExists then
        match waitCoherence rest with
        | (a, WaitRes.stuck) => (Act.connectA :: a, none)
        | (a, WaitRes.raised rest') =>
          if cohExists && !cohSafe then
            let r := runMain cohExists fuel cohSafe rest'
            (Act.connectA :: (a ++ Act.sleep10 :: r.1), r.2)
          else
            let r := runFallback rest'
            (Act.connectA :: (a ++ r.1), r.2)
        | (a, WaitRes.done rest') =>
          match rest' with
          | Ev.shut true :: _ =>
            (Act.connectA :: (a ++ [Act.safeA, Act.shutA true]), some 0)
          | Ev.shut false :: rest2 =>
            if cohExists && !true then
              let r := runMain cohExists fuel true rest2
              (Act.connectA :: (a ++ Act.safeA :: Act.shutA false :: Act.sleep10 :: r.1), r.2)
            else
              let r := runFallback rest2
              (Act.connectA :: (a ++ Act.safeA :: Act.shutA false :: r.1), r.2)
          | _ => (Act.connectA :: (a ++ [Act.safeA]), none)
      else
        match rest with
        | Ev.shut true :: _ => ([Act.connectA, Act.shutA true], some 0)
        | Ev.shut false :: rest2 =>
          if cohExists && !cohSafe then
            let r := runMain cohExists fuel cohSafe rest2
            (Act.connectA :: Act.shutA false :: Act.sleep10 :: r.1, r.2)
          else
            let r := runFallback rest2
            (Act.connectA :: Act.shutA false :: r.1, r.2)
        | _ => ([Act.connectA], none)
    | _ => ([], none)

/-- A health answer on which `waitUntilServiceSafeToShutdown` stays in
its loop: the query raised, or it returned `ENDANGERED`. -/
def staysEv : Ev → Bool
  | Ev.ha none => true
  | Ev.ha (some (some s)) => decide (s = "ENDANGERED")
  | _ => false

/-- A health answer on which `waitUntilServiceSafeToShutdown` breaks out
of its loop: the query returned `None` or a status other than
`ENDANGERED`. -/
def breaksEv : Ev → Bool
  | Ev.ha (some none) => true
  | Ev.ha (some (some s)) => decide (¬ s = "ENDANGERED")
  | _ => false

/-- An enumeration answer on which the outer loop of
`waitUntilCoherenceSafe` continues without entering the per-service
walk: the `queryMBeans` call raised, or it returned no beans. -/
def emptyPassEv : Ev → Bool
  | Ev.qm none => true
  | Ev.qm (some []) => true
  | _ => false

/-- Flatten per-service observation blocks: for each service, the
answers on which its poll loop stays, followed by the answer on which it
breaks. -/
def blockEvs (bs : List (List Ev × Ev)) : List Ev :=
  bs.flatMap (fun b => b.1 ++ [b.2])

/-- Well-formed per-service blocks: every early answer keeps the
per-service loop running and the final answer breaks it. -/
def goodBlocks (bs : List (List Ev × Ev)) : Prop :=
  ∀ b ∈ bs, (∀ e ∈ b.1, staysEv e = true) ∧ breaksEv b.2 = true

/-- One failed connection attempt while no Coherence safety has been
confirmed: either the `connect(...)` call raises, or it succeeds and the
`domainRuntime()` call inside `waitUntilCoherenceSafe` raises. -/
inductive FailStep where
  | connFail
  | drFail
  deriving DecidableEq

/-- Oracle events of one failed attempt. -/
def failEvs : FailStep → List Ev
  | FailStep.connFail => [Ev.conn false]
  | FailStep.drFail => [Ev.conn true, Ev.dr false]

/-- Oracle for a sequence of failed attempts. -/
def failTrace (fs : List FailStep) : List Ev :=
  fs.flatMap failEvs

/-- Trace property scanner: walking the action list left to right with a
flag meaning "`waitUntilCoherenceSafe` has returned since the most recent
connect attempt", every `shutA` action must find the flag set.  A
`connectA` clears the flag, a `safeA` sets it. -/
def guardedFrom : Bool → List Act → Bool
  | _, [] => true
  | _, Act.connectA :: r => guardedFrom false r
  | _, Act.safeA :: r => guardedFrom true r
  | b, Act.shutA _ :: r => b && guardedFrom b r
  | b, _ :: r => guardedFrom b r

/-- Actions that can be emitted from inside the safety wait: sleeps and
completed queries only. -/
def waitAct : Act → Bool
  | Act.queryA => true
  | Act.healthA => true
  | Act.sleep1 => true
  | Act.sleep5 => true
  | Act.sleep10 => true
  | _ => false

/-- A NodeManager fallback action, if present, is the final action of the
trace: nothing at all (in particular no further connect attempt) runs
after the fallback. -/
def nmTerminal : List Act → Bool
  | [] => true
  | Act.nmA _ :: r => r.isEmpty
  | _ :: r => nmTerminal r

/-- Outcome of one per-service wait under the SPECIFICATION'S reading of
exception handling (see `waitServiceSpecC3`). -/
inductive SvcStep where
  | brk (rest : List Ev)
  | reenum (rest : List Ev)
  | stuck
  deriving DecidableEq

/-- Modelled from the spec: per-service health polling as claim C3
describes it — "any exception raised while querying a service's health
causes a log, a 10 time-unit sleep, and then resumption of the outer
loop from the top, re-enumerating the full set of partition-assignment
health objects for all services (not a retry of only the failed
service's query)".  An exception in the health query therefore abandons
the per-service loop and signals re-enumeration. -/
def waitServiceSpecC3 : List Ev → SvcStep
  | Ev.ha none :: rest => SvcStep.reenum rest
  | Ev.ha (some none) :: rest => SvcStep.brk rest
  | Ev.ha (some (some s)) :: rest =>
    if s = "ENDANGERED" then waitServiceSpecC3 rest else SvcStep.brk rest
  | _ => SvcStep.stuck

/-- Modelled from the spec: the per-service walk under claim C3's
reading; a re-enumeration signal from any service aborts the walk. -/
def runBeansSpecC3 : List String → List Ev → SvcStep
  | [], evs => SvcStep.brk evs
  | _ :: bs, evs =>
    match waitServiceSpecC3 evs with
    | SvcStep.brk r => runBeansSpecC3 bs r
    | SvcStep.reenum r => SvcStep.reenum r
    | SvcStep.stuck => SvcStep.stuck

/-- Modelled from the spec: the outer enumeration loop under claim C3's
reading — after an exception in any service's health query the loop
resumes from the top and re-enumerates (consumes a fresh `qm` event).
`fuel` bounds the outer iterations. -/
def waitCohBodySpecC3 : Nat → List Ev → Option (List Ev)
  | 0, _ => none
  | Nat.succ fuel, evs =>
    match evs with
    | Ev.qm none :: rest => waitCohBodySpecC3 fuel rest
    | Ev.qm (some []) :: rest => waitCohBodySpecC3 fuel rest
    | Ev.qm (some (b :: bs)) :: rest =>
      match runBeansSpecC3 (b :: bs) rest with
      | SvcStep.brk r => some r
      | SvcStep.reenum r => waitCohBodySpecC3 fuel r
      | SvcStep.stuck => none
    | _ => none

/-- Oracle on which the code and claim C3's reading observably differ:
one enumeration returning a single service, whose health query raises
once and then answers a safe status. -/
def exC3 : List Ev :=
  [Ev.qm (some ["PartitionedCache"]), Ev.ha none,
   Ev.ha (some (some "MACHINE-SAFE"))]

theorem isPrefixOf_nil_eq_false {pat : List Char} (h : pat ≠ []) :
    pat.isPrefixOf ([] : List Char) = false := by
  cases pat with
  | nil => exact absurd rfl h
  | cons a as => rfl

theorem occursAt_cons_succ (pat : List Char) (c : Char) (rest : List Char) (i : Nat) :
    occursAt pat (c :: rest) (i + 1) = occursAt pat rest i := rfl

theorem occursAt_zero (pat s : List Char) :
    occursAt pat s 0 = pat.isPrefixOf s := rfl

theorem findSub_eq_some (pat : List Char) (hpat : pat ≠ []) (s : List Char) :
    ∀ k : Nat, occursAt pat s k = true →
      (∀ i, i < k → occursAt pat s i = false) → findSub pat s = some k := by
  induction s with
  | nil =>
    intro k hk _
    rw [occursAt, List.drop_nil, isPrefixOf_nil_eq_false hpat] at hk
    exact absurd hk (by simp)
  | cons c rest ih =>
    intro k hk hmin
    cases k with
    | zero =>
      rw [occursAt_zero] at hk
      simp [findSub, hk]
    | succ j =>
      have h0 : pat.isPrefixOf (c :: rest) = false := by
        have := hmin 0 (Nat.succ_pos j)
        rwa [occursAt_zero] at this
      rw [occursAt_cons_succ] at hk
      have hmin' : ∀ i, i < j → occursAt pat rest i = false := by
        intro i hi
        have := hmin (i + 1) (Nat.succ_lt_succ hi)
        rwa [occursAt_cons_succ] at this
      simp [findSub, h0, ih j hk hmin']

theorem findSub_eq_none (pat : List Char) (hpat : pat ≠ []) (s : List Char) :
    (∀ i, i < s.length → occursAt pat s i = false) → findSub pat s = none := by
  induction s with
  | nil =>
    intro _
    simp [findSub, isPrefixOf_nil_eq_false hpat]
  | cons c rest ih =>
    intro h
    have h0 : pat.isPrefixOf (c :: rest) = false := by
      have := h 0 (by simp)
      rwa [occursAt_zero] at this
    have h' : ∀ i, i < rest.length → occursAt pat rest i = false := by
      intro i hi
      have := h (i + 1) (by simpa using Nat.succ_lt_succ hi)
      rwa [occursAt_cons_succ] at this
    simp [findSub, h0, ih h']

theorem openTag_length : openTag.length = 35 := by decide

theorem closeTag_length : closeTag.length = 36 := by decide

theorem elementName_length : elementName.length = 33 := by decide

theorem openTag_ne_nil : openTag ≠ [] := by decide

theorem closeTag_ne_nil : closeTag ≠ [] := by decide

/-- Claim C6: for every configuration document whose whitespace-stripped
form contains the `coherence-cluster-system-resource` element — written
`pre ++ openTag ++ c ++ closeTag ++ post` where the opening tag occurs
nowhere earlier than `pre.length` and the closing tag occurs nowhere in
`c` before position `c.length` — the detector returns `true` exactly when
the stripped inner content `c` is non-empty (non-whitespace inner
content), and `false` when it is empty; and for every document in which
the opening tag does not occur at all, the detector returns `false`. -/
theorem C6_detector (d : List Char) :
    (∀ pre c post : List Char,
      stripWS d = pre ++ openTag ++ c ++ closeTag ++ post →
      (∀ i, i < pre.length → occursAt openTag (stripWS d) i = false) →
      (∀ j, j < c.length → occursAt closeTag (c ++ closeTag ++ post) j = false) →
      checkCoherenceClusterExist d = decide (c ≠ [])) ∧
    ((∀ i, i < (stripWS d).length → occursAt openTag (stripWS d) i = false) →
      checkCoherenceClusterExist d = false) := by
  constructor
  · intro pre c post hsp h1 h2
    have hassoc : stripWS d = pre ++ (openTag ++ (c ++ (closeTag ++ post))) := by
      simpa [List.append_assoc] using hsp
    have hdrop1 : (stripWS d).drop pre.length = openTag ++ (c ++ (closeTag ++ post)) := by
      rw [hassoc, List.drop_left]
    have hocc1 : occursAt openTag (stripWS d) pre.length = true := by
      rw [occursAt, hdrop1]
      simp [List.isPrefixOf_iff_prefix]
    have hfind1 : findSub openTag (stripWS d) = some pre.length :=
      findSub_eq_some openTag openTag_ne_nil _ pre.length hocc1 h1
    have hdrop2 : (stripWS d).drop (pre.length + openTag.length)
        = c ++ (closeTag ++ post) := by
      have hre : stripWS d = (pre ++ openTag) ++ (c ++ (closeTag ++ post)) := by
        simpa [List.append_assoc] using hsp
      rw [hre, ← List.length_append pre openTag, List.drop_left]
    have hocc2 : occursAt closeTag (c ++ (closeTag ++ post)) c.length = true := by
      rw [occursAt, List.drop_left]
      simp [List.isPrefixOf_iff_prefix]
    have h2' : ∀ j, j < c.length → occursAt closeTag (c ++ (closeTag ++ post)) j = false := by
      intro j hj
      have := h2 j hj
      simpa [List.append_assoc] using this
    have hfind2 : findSub closeTag (c ++ (closeTag ++ post)) = some c.length :=
      findSub_eq_some closeTag closeTag_ne_nil _ c.length hocc2 h2'
    have hfrom : findFrom closeTag (stripWS d) (pre.length + openTag.length)
        = some (c.length + (pre.length + openTag.length)) := by
      rw [findFrom, hdrop2, hfind2]
      rfl
    simp only [checkCoherenceClusterExist, hfind1, hfrom]
    simp only [openTag_length, closeTag_length, elementName_length]
    rw [decide_eq_decide, ← List.length_pos]
    omega
  · intro h
    have hfind : findSub openTag (stripWS d) = none :=
      findSub_eq_none openTag openTag_ne_nil _ h
    simp [checkCoherenceClusterExist, hfind]

/-- Witness for C6: the three hypothesis shapes at concrete documents — a
document with non-whitespace inner content yields `true`, one whose inner
content is all whitespace yields `false`, one without the element yields
`false`. -/
theorem C6_detector_witness :
    checkCoherenceClusterExist
      "<coherence-cluster-system-resource> mycluster </coherence-cluster-system-resource>".toList
      = true ∧
    checkCoherenceClusterExist
      "<coherence-cluster-system-resource>  </coherence-cluster-system-resource>".toList
      = false ∧
    checkCoherenceClusterExist "<server><name>ms1</name></server>".toList = false := by
  refine ⟨?_, ?_, ?_⟩
  · have h := (C6_detector
      "<coherence-cluster-system-resource> mycluster </coherence-cluster-system-resource>".toList).1
      [] "mycluster".toList [] (by decide) (by decide) (by decide)
    exact h.trans (by decide)
  · have h := (C6_detector
      "<coherence-cluster-system-resource>  </coherence-cluster-system-resource>".toList).1
      [] [] [] (by decide) (by decide) (by decide)
    exact h.trans (by decide)
  · exact (C6_detector "<server><name>ms1</name></server>".toList).2 (by decide)

/-- Claim C7: whenever reading the configuration fails, or an exception
is raised while its content is processed, the detector answers `true`
(a data grid is assumed present).  No exception is propagated: the
embedded detector is a total function into `Bool`. -/
theorem C7_detector_fail_safe (r : ReadResult) (procRaises : Bool)
    (h : r = ReadResult.err ∨ procRaises = true) :
    doesCoherenceExist r procRaises = true := by
  rcases h with h | h
  · rw [h]
    rfl
  · cases r with
    | err => rfl
    | ok data => simp [doesCoherenceExist, checkCoherenceClusterExistT, h]

/-- Witness for C7: a read failure and a processing exception, each at a
concrete input. -/
theorem C7_detector_fail_safe_witness :
    doesCoherenceExist ReadResult.err false = true ∧
    doesCoherenceExist (ReadResult.ok "<domain/>".toList) true = true :=
  ⟨C7_detector_fail_safe ReadResult.err false (Or.inl rfl),
   C7_detector_fail_safe (ReadResult.ok "<domain/>".toList) true (Or.inr rfl)⟩

/-- Claim C8: with a data grid and the stopped server equal to the admin
server, the force flag passed to shutdown is `'true'` whatever the
configured shutdown mode, and the connection target is the admin
endpoint; without a data grid the target is the local server endpoint
with the user-configured force flag. -/
theorem C8_target_selection
    (mode adminName serverName proto adminHost adminPort serviceName localPort : String) :
    (adminName = serverName →
      selectTarget true adminName serverName proto adminHost adminPort serviceName localPort
          (computeForce mode)
        = (proto ++ "://" ++ adminHost ++ ":" ++ adminPort, "true")) ∧
    selectTarget false adminName serverName proto adminHost adminPort serviceName localPort
        (computeForce mode)
      = (proto ++ "://" ++ serviceName ++ ":" ++ localPort, computeForce mode) := by
  constructor
  · intro h
    simp [selectTarget, h]
  · rfl

/-- Witness for C8: concrete admin-server and managed-server cases, with
a graceful configured mode. -/
theorem C8_target_selection_witness :
    selectTarget true "admin-server" "admin-server" "t3" "dom-admin" "7001" "dom-ms1" "8001"
        (computeForce "graceful")
      = ("t3://dom-admin:7001", "true") ∧
    selectTarget false "admin-server" "ms1" "t3" "dom-admin" "7001" "dom-ms1" "8001"
        (computeForce "graceful")
      = ("t3://dom-ms1:8001", "false") := by
  constructor
  · exact ((C8_target_selection "graceful" "admin-server" "admin-server" "t3" "dom-admin"
      "7001" "dom-ms1" "8001").1 rfl).trans (by decide)
  · exact ((C8_target_selection "graceful" "admin-server" "ms1" "t3" "dom-admin"
      "7001" "dom-ms1" "8001").2).trans (by decide)

theorem loadVars_acts (env : String → Option String) :
    ∀ vs : List String, ∀ a ∈ (loadVars env vs).1,
      (∃ w ∈ vs, a = SAct.readEnv w) ∨ (∃ w ∈ vs, env w = none ∧ a = SAct.errMsg w) := by
  intro vs
  induction vs with
  | nil =>
    intro a ha
    simp [loadVars] at ha
  | cons v vs ih =>
    intro a ha
    cases hv : env v with
    | none =>
      simp [loadVars, hv] at ha
      rcases ha with ha | ha
      · exact Or.inl ⟨v, by simp, ha⟩
      · exact Or.inr ⟨v, by simp, hv, ha⟩
    | some s =>
      simp only [loadVars, hv] at ha
      rcases List.mem_cons.mp ha with ha | ha
      · exact Or.inl ⟨v, by simp, ha⟩
      · rcases ih a ha with ⟨w, hw, hww⟩ | ⟨w, hw, hww⟩
        · exact Or.inl ⟨w, List.mem_cons_of_mem v hw, hww⟩
        · exact Or.inr ⟨w, List.mem_cons_of_mem v hw, hww⟩

theorem loadVars_false (env : String → Option String) :
    ∀ vs : List String, (∃ v ∈ vs, env v = none) → (loadVars env vs).2 = false := by
  intro vs
  induction vs with
  | nil =>
    intro h
    simp at h
  | cons v vs ih =>
    intro h
    cases hv : env v with
    | none => simp [loadVars, hv]
    | some s =>
      rcases h with ⟨w, hw, hwn⟩
      rcases List.mem_cons.mp hw with rfl | hw
      · rw [hv] at hwn
        exact absurd hwn (by simp)
      · simp only [loadVars, hv]
        exact ih ⟨w, hw, hwn⟩

theorem loadVars_errMsg (env : String → Option String) :
    ∀ vs : List String, (loadVars env vs).2 = false →
      ∃ w ∈ vs, env w = none ∧ SAct.errMsg w ∈ (loadVars env vs).1 := by
  intro vs
  induction vs with
  | nil =>
    intro h
    simp [loadVars] at h
  | cons v vs ih =>
    intro h
    cases hv : env v with
    | none => exact ⟨v, by simp, hv, by simp [loadVars, hv]⟩
    | some s =>
      simp only [loadVars, hv] at h ⊢
      rcases ih h with ⟨w, hw, hwn, hmem⟩
      exact ⟨w, List.mem_cons_of_mem v hw, hwn, List.mem_cons_of_mem _ hmem⟩

/-- Claim C10: if any required environment variable is unset, the script
exits with status 1, no credential-key read/decode, no config read and no
connection attempt has happened, and the error message printed names an
unset required variable — the variable itself whenever it is the only
unset one. -/
theorem C10_env_vars (env : String → Option String) (v : String)
    (hv : v ∈ requiredEnvVars) (hnone : env v = none) :
    (startup env).2 = some 1 ∧
    SAct.keyRead ∉ (startup env).1 ∧
    SAct.keyDecode ∉ (startup env).1 ∧
    SAct.configRead ∉ (startup env).1 ∧
    SAct.connectCall ∉ (startup env).1 ∧
    (∃ w ∈ requiredEnvVars, env w = none ∧ SAct.errMsg w ∈ (startup env).1) ∧
    ((∀ w ∈ requiredEnvVars, w ≠ v → env w ≠ none) → SAct.errMsg v ∈ (startup env).1) := by
  have hfalse : (loadVars env requiredEnvVars).2 = false :=
    loadVars_false env requiredEnvVars ⟨v, hv, hnone⟩
  have hstart : startup env = ((loadVars env requiredEnvVars).1, some 1) := by
    simp [startup, hfalse]
  have hnotin : ∀ a : SAct, (∀ w : String, a ≠ SAct.readEnv w ∧ a ≠ SAct.errMsg w) →
      a ∉ (startup env).1 := by
    intro a hshape hmem
    rw [hstart] at hmem
    rcases loadVars_acts env requiredEnvVars a hmem with ⟨w, _, hww⟩ | ⟨w, _, _, hww⟩
    · exact (hshape w).1 hww
    · exact (hshape w).2 hww
  refine ⟨by rw [hstart], hnotin _ (by intro w; simp), hnotin _ (by intro w; simp),
    hnotin _ (by intro w; simp), hnotin _ (by intro w; simp), ?_, ?_⟩
  · rcases loadVars_errMsg env requiredEnvVars hfalse with ⟨w, hw, hwn, hmem⟩
    exact ⟨w, hw, hwn, by rw [hstart]; exact hmem⟩
  · intro huniq
    rcases loadVars_errMsg env requiredEnvVars hfalse with ⟨w, hw, hwn, hmem⟩
    have hwv : w = v := by
      by_contra hne
      exact huniq w hw hne hwn
    rw [hstart]
    simpa [hwv] using hmem

/-- Witness for C10: an environment in which exactly `SERVER_NAME` is
unset. -/
theorem C10_env_vars_witness :
    (startup (fun w => if w = "SERVER_NAME" then none else some "x")).2 = some 1 ∧
    SAct.errMsg "SERVER_NAME"
      ∈ (startup (fun w => if w = "SERVER_NAME" then none else some "x")).1 ∧
    SAct.keyRead ∉ (startup (fun w => if w = "SERVER_NAME" then none else some "x")).1 := by
  have h := C10_env_vars (fun w => if w = "SERVER_NAME" then none else some "x")
    "SERVER_NAME" (by decide) (by simp)
  exact ⟨h.1, h.2.2.2.2.2.2 (by decide), h.2.1⟩

/-- Actions performed for one health answer on which the per-service
loop stays: a completed query, then the handler sleep (10 on an
exception, 5 on `ENDANGERED`). -/
def stayActs : Ev → List Act
  | Ev.ha none => [Act.healthA, Act.sleep10]
  | _ => [Act.healthA, Act.sleep5]

/-- Actions of one enumeration answer on which the outer loop continues:
a completed query, then sleep 10 (exception) or sleep 1 (no beans). -/
def emptyActs : Ev → List Act
  | Ev.qm none => [Act.queryA, Act.sleep10]
  | _ => [Act.queryA, Act.sleep1]

/-- Actions of a complete per-service walk over well-formed blocks. -/
def passActs (bs : List (List Ev × Ev)) : List Act :=
  bs.flatMap (fun p => p.1.flatMap stayActs ++ [Act.healthA])

theorem breaksEv_cases {e : Ev} (h : breaksEv e = true) :
    e = Ev.ha (some none) ∨ ∃ s, e = Ev.ha (some (some s)) ∧ ¬ s = "ENDANGERED" := by
  cases e with
  | ha r =>
    match r with
    | none => simp [breaksEv] at h
    | some none => exact Or.inl rfl
    | some (some s) => exact Or.inr ⟨s, rfl, by simpa [breaksEv] using h⟩
  | conn o => simp [breaksEv] at h
  | dr o => simp [breaksEv] at h
  | qm r => simp [breaksEv] at h
  | shut o => simp [breaksEv] at h
  | nm o => simp [breaksEv] at h

theorem staysEv_cases {e : Ev} (h : staysEv e = true) :
    e = Ev.ha none ∨ e = Ev.ha (some (some "ENDANGERED")) := by
  cases e with
  | ha r =>
    match r with
    | none => exact Or.inl rfl
    | some none => simp [staysEv] at h
    | some (some s) =>
      have hs : s = "ENDANGERED" := by simpa [staysEv] using h
      exact Or.inr (by rw [hs])
  | conn o => simp [staysEv] at h
  | dr o => simp [staysEv] at h
  | qm r => simp [staysEv] at h
  | shut o => simp [staysEv] at h
  | nm o => simp [staysEv] at h

theorem waitServiceEvs_block :
    ∀ (block : List Ev) (b : Ev) (rest : List Ev),
      (∀ e ∈ block, staysEv e = true) → breaksEv b = true →
      waitServiceEvs (block ++ b :: rest)
        = (block.flatMap stayActs ++ [Act.healthA], some rest) := by
  intro block
  induction block with
  | nil =>
    intro b rest _ hb
    rcases breaksEv_cases hb with rfl | ⟨s, rfl, hs⟩
    · simp [waitServiceEvs]
    · simp [waitServiceEvs, hs]
  | cons e block ih =>
    intro b rest hst hb
    have he := hst e (by simp)
    have hrest : ∀ x ∈ block, staysEv x = true := fun x hx => hst x (by simp [hx])
    rcases staysEv_cases he with rfl | rfl
    · simp [waitServiceEvs, ih b rest hrest hb, stayActs]
    · simp [waitServiceEvs, ih b rest hrest hb, stayActs]

theorem runBeans_blocks :
    ∀ (bs : List (List Ev × Ev)) (names : List String) (R : List Ev),
      bs.length = names.length → goodBlocks bs →
      runBeans names (blockEvs bs ++ R) = (passActs bs, some R) := by
  intro bs
  induction bs with
  | nil =>
    intro names R hlen _
    cases names with
    | nil => simp [runBeans, blockEvs, passActs]
    | cons n ns => simp at hlen
  | cons p bs ih =>
    intro names R hlen hgood
    cases names with
    | nil => simp at hlen
    | cons n ns =>
      have hp := hgood p (by simp)
      have hws := waitServiceEvs_block p.1 p.2 (blockEvs bs ++ R) hp.1 hp.2
      have hevs : blockEvs (p :: bs) ++ R = p.1 ++ (p.2 :: (blockEvs bs ++ R)) := by
        simp [blockEvs, List.append_assoc]
      have hgood' : goodBlocks bs := fun b hb => hgood b (by simp [hb])
      rw [hevs]
      simp only [runBeans, hws]
      rw [ih ns R (by simpa using hlen) hgood']
      simp [passActs]

theorem waitCohBody_pass :
    ∀ (pre : List Ev) (names : List String) (bs : List (List Ev × Ev)) (R : List Ev),
      (∀ e ∈ pre, emptyPassEv e = true) → names ≠ [] → bs.length = names.length →
      goodBlocks bs →
      waitCohBody (pre ++ Ev.qm (some names) :: (blockEvs bs ++ R))
        = (pre.flatMap emptyActs ++ Act.queryA :: passActs bs, some R) := by
  intro pre
  induction pre with
  | nil =>
    intro names bs R _ hne hlen hgood
    cases names with
    | nil => exact absurd rfl hne
    | cons n ns =>
      simp only [List.nil_append, waitCohBody]
      rw [runBeans_blocks bs (n :: ns) R hlen hgood]
      simp
  | cons e pre ih =>
    intro names bs R hpre hne hlen hgood
    have he := hpre e (by simp)
    have hpre' : ∀ x ∈ pre, emptyPassEv x = true := fun x hx => hpre x (by simp [hx])
    have hih := ih names bs R hpre' hne hlen hgood
    cases e with
    | qm r =>
      match r with
      | none => simp [waitCohBody, hih, emptyActs]
      | some [] => simp [waitCohBody, hih, emptyActs]
      | some (b :: bs') => simp [emptyPassEv] at he
    | conn o => simp [emptyPassEv] at he
    | dr o => simp [emptyPassEv] at he
    | ha r => simp [emptyPassEv] at he
    | shut o => simp [emptyPassEv] at he
    | nm o => simp [emptyPassEv] at he

theorem waitCoherence_pass (pre : List Ev) (names : List String)
    (bs : List (List Ev × Ev)) (R : List Ev)
    (hpre : ∀ e ∈ pre, emptyPassEv e = true) (hne : names ≠ [])
    (hlen : bs.length = names.length) (hgood : goodBlocks bs) :
    waitCoherence (Ev.dr true :: (pre ++ Ev.qm (some names) :: (blockEvs bs ++ R)))
      = (pre.flatMap emptyActs ++ Act.queryA :: passActs bs, WaitRes.done R) := by
  have h := waitCohBody_pass pre names bs R hpre hne hlen hgood
  simp only [waitCoherence, h]

theorem waitServiceEvs_no_break :
    ∀ evs : List Ev, (∀ e ∈ evs, breaksEv e = false) → (waitServiceEvs evs).2 = none := by
  intro evs
  induction evs with
  | nil => intro _; rfl
  | cons e rest ih =>
    intro h
    have he := h e (by simp)
    have hrest : ∀ x ∈ rest, breaksEv x = false := fun x hx => h x (by simp [hx])
    cases e with
    | ha r =>
      match r with
      | none => simpa [waitServiceEvs] using ih hrest
      | some none => simp [breaksEv] at he
      | some (some s) =>
        have hs : s = "ENDANGERED" := by simpa [breaksEv] using he
        simpa [waitServiceEvs, hs] using ih hrest
    | conn o => rfl
    | dr o => rfl
    | qm r => rfl
    | shut o => rfl
    | nm o => rfl

theorem waitCohBody_no_break :
    ∀ evs : List Ev, (∀ e ∈ evs, breaksEv e = false) → (waitCohBody evs).2 = none := by
  intro evs
  induction evs with
  | nil => intro _; rfl
  | cons e rest ih =>
    intro h
    have hrest : ∀ x ∈ rest, breaksEv x = false := fun x hx => h x (by simp [hx])
    cases e with
    | qm r =>
      match r with
      | none => simpa [waitCohBody] using ih hrest
      | some [] => simpa [waitCohBody] using ih hrest
      | some (b :: bs) =>
        have hws := waitServiceEvs_no_break rest hrest
        cases hpair : waitServiceEvs rest with
        | mk a r2 =>
          rw [hpair] at hws
          subst hws
          simp [waitCohBody, runBeans, hpair]
    | conn o => rfl
    | dr o => rfl
    | ha r => rfl
    | shut o => rfl
    | nm o => rfl

theorem waitCoherence_no_break (evs : List Ev)
    (h : ∀ e ∈ evs, breaksEv e = false) :
    (waitCoherence (Ev.dr true :: evs)).2 = WaitRes.stuck := by
  have hb := waitCohBody_no_break evs h
  cases hpair : waitCohBody evs with
  | mk a r =>
    rw [hpair] at hb
    subst hb
    simp [waitCoherence, hpair]

/-- Claim C2: `waitUntilCoherenceSafe` returns exactly after the first
enumeration pass in which every enumerated service's final observation is
non-`ENDANGERED` (or `None`): on an oracle consisting of failed/empty
enumerations, then an enumeration returning services, then for each
service a block of stay-observations ended by a break-observation, the
wait returns leaving exactly the remainder `R` unconsumed.  And it never
returns while every supplied observation keeps some service
`ENDANGERED`/failing: on an oracle of arbitrary (unbounded) length with
no break-observation it is still running when the oracle ends — there is
no internal timeout. -/
theorem C2_safety_wait :
    (∀ (pre : List Ev) (names : List String) (bs : List (List Ev × Ev)) (R : List Ev),
      (∀ e ∈ pre, emptyPassEv e = true) → names ≠ [] → bs.length = names.length →
      goodBlocks bs →
      (waitCoherence (Ev.dr true :: (pre ++ Ev.qm (some names) :: (blockEvs bs ++ R)))).2
        = WaitRes.done R) ∧
    (∀ evs : List Ev, (∀ e ∈ evs, breaksEv e = false) →
      (waitCoherence (Ev.dr true :: evs)).2 = WaitRes.stuck) := by
  constructor
  · intro pre names bs R hpre hne hlen hgood
    rw [waitCoherence_pass pre names bs R hpre hne hlen hgood]
  · exact waitCoherence_no_break

/-- Witness for C2: a run with one failed enumeration, then one service
that is first `ENDANGERED` and then safe, returning with the remainder
untouched; and an all-`ENDANGERED` run that never returns. -/
theorem C2_safety_wait_witness :
    (waitCoherence [Ev.dr true, Ev.qm none, Ev.qm (some ["PartitionedCache"]),
        Ev.ha (some (some "ENDANGERED")), Ev.ha (some (some "NODE-SAFE")),
        Ev.shut true]).2
      = WaitRes.done [Ev.shut true] ∧
    (waitCoherence [Ev.dr true, Ev.qm (some ["PartitionedCache"]),
        Ev.ha (some (some "ENDANGERED")), Ev.ha none]).2 = WaitRes.stuck := by
  constructor
  · have h := C2_safety_wait.1 [Ev.qm none] ["PartitionedCache"]
      [([Ev.ha (some (some "ENDANGERED"))], Ev.ha (some (some "NODE-SAFE")))]
      [Ev.shut true] (by decide) (by decide) (by decide)
      (by unfold goodBlocks; decide)
    simpa [blockEvs] using h
  · exact C2_safety_wait.2 _ (by decide)

/-- Counterexample to claim C3: on the oracle `exC3` — one enumeration
returning a single service, whose health query raises once and then
answers a safe status — the code completes the pass, retrying only the
failed service's query inside `waitUntilServiceSafeToShutdown` and never
re-enumerating (the oracle holds exactly one `qm` answer and the run
consumes everything).  Under the claim's behavior (exception in the
health query ⇒ resume the outer loop from the top and re-enumerate), the
run cannot proceed past the exception, because the oracle's next answer
is a health answer, not an enumeration answer: the spec-modelled
`waitCohBodySpecC3` does not return on `exC3` at any fuel (5 shown). -/
theorem C3_counterexample :
    (waitCohBody exC3).2 = some [] ∧ waitCohBodySpecC3 5 exC3 = none := by
  constructor
  · rfl
  · rfl

/-- Claim C3 amended: an exception raised while querying an individual
service's health causes a log, a 10 time-unit sleep, and a retry of the
same service's query inside the per-service loop — no re-enumeration; an
exception raised by the enumeration query itself causes a log, a 10
time-unit sleep, and resumption of the outer loop from the top
(re-enumerating all services).  Third conjunct: a whole block of
stay-observations (health exceptions included) is absorbed by the
per-service loop, consuming no enumeration event. -/
theorem C3_health_exception :
    (∀ evs : List Ev, waitServiceEvs (Ev.ha none :: evs)
      = (Act.healthA :: Act.sleep10 :: (waitServiceEvs evs).1, (waitServiceEvs evs).2)) ∧
    (∀ evs : List Ev, waitCohBody (Ev.qm none :: evs)
      = (Act.queryA :: Act.sleep10 :: (waitCohBody evs).1, (waitCohBody evs).2)) ∧
    (∀ (block : List Ev) (b : Ev) (rest : List Ev),
      (∀ e ∈ block, staysEv e = true) → breaksEv b = true →
      (waitServiceEvs (block ++ b :: rest)).2 = some rest) := by
  refine ⟨fun _ => rfl, fun _ => rfl, ?_⟩
  intro block b rest hst hb
  rw [waitServiceEvs_block block b rest hst hb]

/-- Witness for C3's amended theorem: a block with one health exception
and one `ENDANGERED` answer, then a safe answer. -/
theorem C3_health_exception_witness :
    (waitServiceEvs [Ev.ha none, Ev.ha (some (some "ENDANGERED")),
        Ev.ha (some none), Ev.qm none]).2 = some [Ev.qm none] := by
  have h := C3_health_exception.2.2 [Ev.ha none, Ev.ha (some (some "ENDANGERED"))]
    (Ev.ha (some none)) [Ev.qm none] (by decide) (by decide)
  simpa using h

theorem waitServiceEvs_acts :
    ∀ evs : List Ev, ∀ x ∈ (waitServiceEvs evs).1, waitAct x = true := by
  intro evs
  induction evs with
  | nil => intro x hx; simp [waitServiceEvs] at hx
  | cons e rest ih =>
    intro x hx
    cases e with
    | ha r =>
      match r with
      | none =>
        simp only [waitServiceEvs, List.mem_cons] at hx
        rcases hx with rfl | rfl | hx
        · rfl
        · rfl
        · exact ih x hx
      | some none =>
        simp only [waitServiceEvs, List.mem_cons] at hx
        rcases hx with rfl | hx
        · rfl
        · simp at hx
      | some (some s) =>
        by_cases hs : s = "ENDANGERED"
        · simp only [waitServiceEvs, if_pos hs, List.mem_cons] at hx
          rcases hx with rfl | rfl | hx
          · rfl
          · rfl
          · exact ih x hx
        · simp only [waitServiceEvs, if_neg hs, List.mem_cons] at hx
          rcases hx with rfl | hx
          · rfl
          · simp at hx
    | conn o => simp [waitServiceEvs] at hx
    | dr o => simp [waitServiceEvs] at hx
    | qm r => simp [waitServiceEvs] at hx
    | shut o => simp [waitServiceEvs] at hx
    | nm o => simp [waitServiceEvs] at hx

theorem runBeans_acts :
    ∀ (names : List String) (evs : List Ev),
      ∀ x ∈ (runBeans names evs).1, waitAct x = true := by
  intro names
  induction names with
  | nil => intro evs x hx; simp [runBeans] at hx
  | cons n ns ih =>
    intro evs x hx
    cases hws : waitServiceEvs evs with
    | mk a r =>
      match r with
      | none =>
        simp only [runBeans, hws] at hx
        exact waitServiceEvs_acts evs x (by rw [hws]; exact hx)
      | some evs' =>
        simp only [runBeans, hws] at hx
        rcases List.mem_append.mp hx with hx | hx
        · exact waitServiceEvs_acts evs x (by rw [hws]; exact hx)
        · exact ih evs' x hx

theorem waitCohBody_acts :
    ∀ evs : List Ev, ∀ x ∈ (waitCohBody evs).1, waitAct x = true := by
  intro evs
  induction evs with
  | nil => intro x hx; simp [waitCohBody] at hx
  | cons e rest ih =>
    intro x hx
    cases e with
    | qm r =>
      match r with
      | none =>
        simp only [waitCohBody, List.mem_cons] at hx
        rcases hx with rfl | rfl | hx
        · rfl
        · rfl
        · exact ih x hx
      | some [] =>
        simp only [waitCohBody, List.mem_cons] at hx
        rcases hx with rfl | rfl | hx
        · rfl
        · rfl
        · exact ih x hx
      | some (b :: bs) =>
        simp only [waitCohBody, List.mem_cons] at hx
        rcases hx with rfl | hx
        · rfl
        · exact runBeans_acts (b :: bs) rest x hx
    | conn o => simp [waitCohBody] at hx
    | dr o => simp [waitCohBody] at hx
    | ha r => simp [waitCohBody] at hx
    | shut o => simp [waitCohBody] at hx
    | nm o => simp [waitCohBody] at hx

theorem waitCoherence_acts (evs : List Ev) :
    ∀ x ∈ (waitCoherence evs).1, waitAct x = true := by
  intro x hx
  match evs with
  | [] => simp [waitCoherence] at hx
  | Ev.dr true :: rest =>
    cases hb : waitCohBody rest with
    | mk a r =>
      match r with
      | none =>
        simp only [waitCoherence, hb] at hx
        exact waitCohBody_acts rest x (by rw [hb]; exact hx)
      | some evs' =>
        simp only [waitCoherence, hb] at hx
        exact waitCohBody_acts rest x (by rw [hb]; exact hx)
  | Ev.dr false :: rest => simp [waitCoherence] at hx
  | Ev.conn o :: rest => simp [waitCoherence] at hx
  | Ev.qm r :: rest => simp [waitCoherence] at hx
  | Ev.ha r :: rest => simp [waitCoherence] at hx
  | Ev.shut o :: rest => simp [waitCoherence] at hx
  | Ev.nm o :: rest => simp [waitCoherence] at hx

theorem runFallback_split (rest : List Ev) :
    ((runFallback rest).1 = [] ∧ (runFallback rest).2 = none) ∨
    ∃ ok : Bool, (runFallback rest).1 = [Act.nmA ok] ∧
      (runFallback rest).2 = some (if ok then 0 else 2) := by
  match rest with
  | [] => exact Or.inl ⟨rfl, rfl⟩
  | Ev.nm true :: _ => exact Or.inr ⟨true, rfl, rfl⟩
  | Ev.nm false :: _ => exact Or.inr ⟨false, rfl, rfl⟩
  | Ev.conn o :: _ => exact Or.inl ⟨rfl, rfl⟩
  | Ev.dr o :: _ => exact Or.inl ⟨rfl, rfl⟩
  | Ev.qm r :: _ => exact Or.inl ⟨rfl, rfl⟩
  | Ev.ha r :: _ => exact Or.inl ⟨rfl, rfl⟩
  | Ev.shut o :: _ => exact Or.inl ⟨rfl, rfl⟩

/-- Last action of a trace. -/
def lastAct : List Act → Option Act
  | [] => none
  | [a] => some a
  | _ :: b :: r => lastAct (b :: r)

theorem lastAct_cons {l : List Act} (x : Act) (h : l ≠ []) :
    lastAct (x :: l) = lastAct l := by
  cases l with
  | nil => exact absurd rfl h
  | cons b r => rfl

theorem lastAct_append {l2 : List Act} (l1 : List Act) (h : l2 ≠ []) :
    lastAct (l1 ++ l2) = lastAct l2 := by
  induction l1 with
  | nil => rfl
  | cons x l1 ih =>
    rw [List.cons_append, lastAct_cons x, ih]
    intro habs
    rcases List.append_eq_nil.mp habs with ⟨_, h2⟩
    exact h h2

theorem guardedFrom_append_wait {l : List Act} (hl : ∀ x ∈ l, waitAct x = true) :
    ∀ (b : Bool) (r : List Act), guardedFrom b (l ++ r) = guardedFrom b r := by
  induction l with
  | nil => intro b r; rfl
  | cons a l ih =>
    intro b r
    have ha := hl a (by simp)
    have hl' : ∀ x ∈ l, waitAct x = true := fun x hx => hl x (by simp [hx])
    cases a with
    | connectA => simp [waitAct] at ha
    | safeA => simp [waitAct] at ha
    | shutA ok => simp [waitAct] at ha
    | nmA ok => simp [waitAct] at ha
    | queryA => simpa [guardedFrom] using ih hl' b r
    | healthA => simpa [guardedFrom] using ih hl' b r
    | sleep1 => simpa [guardedFrom] using ih hl' b r
    | sleep5 => simpa [guardedFrom] using ih hl' b r
    | sleep10 => simpa [guardedFrom] using ih hl' b r

theorem guardedFrom_wait {l : List Act} (hl : ∀ x ∈ l, waitAct x = true) (b : Bool) :
    guardedFrom b l = true := by
  have h := guardedFrom_append_wait hl b []
  rwa [List.append_nil] at h

theorem nmTerminal_append_wait {l : List Act} (hl : ∀ x ∈ l, waitAct x = true) :
    ∀ r : List Act, nmTerminal (l ++ r) = nmTerminal r := by
  induction l with
  | nil => intro r; rfl
  | cons a l ih =>
    intro r
    have ha := hl a (by simp)
    have hl' : ∀ x ∈ l, waitAct x = true := fun x hx => hl x (by simp [hx])
    cases a with
    | connectA => simp [waitAct] at ha
    | safeA => simp [waitAct] at ha
    | shutA ok => simp [waitAct] at ha
    | nmA ok => simp [waitAct] at ha
    | queryA => simpa [nmTerminal] using ih hl' r
    | healthA => simpa [nmTerminal] using ih hl' r
    | sleep1 => simpa [nmTerminal] using ih hl' r
    | sleep5 => simpa [nmTerminal] using ih hl' r
    | sleep10 => simpa [nmTerminal] using ih hl' r

/-- Claim C1: with a Coherence cluster (`cohExists = true`), in every
run of the main connect loop — any fuel, any initial safety flag, any
oracle — every graceful `shutdown` call in the action trace is preceded,
after the most recent connect attempt, by a `waitUntilCoherenceSafe()`
call that returned (`guardedFrom` scans the trace for exactly this:
`connectA` clears the since-this-connect flag, `safeA` sets it, and
every `shutA` requires it). -/
theorem C1_graceful_guarded :
    ∀ (fuel : Nat) (cohSafe b : Bool) (evs : List Ev),
      guardedFrom b (runMain true fuel cohSafe evs).1 = true := by
  intro fuel
  induction fuel with
  | zero => intro cohSafe b evs; rfl
  | succ fuel ih =>
    intro cohSafe b evs
    match evs with
    | [] => rfl
    | Ev.dr o :: rest => rfl
    | Ev.qm r :: rest => rfl
    | Ev.ha r :: rest => rfl
    | Ev.shut o :: rest => rfl
    | Ev.nm o :: rest => rfl
    | Ev.conn false :: rest =>
      cases cohSafe with
      | false =>
        simp only [runMain, Bool.not_false, Bool.and_true, if_true]
        simpa [guardedFrom] using ih false false rest
      | true =>
        simp only [runMain, Bool.not_true, Bool.and_false, if_false]
        rcases runFallback_split rest with ⟨h1, _⟩ | ⟨ok, h1, _⟩ <;>
          simp [guardedFrom, h1]
    | Ev.conn true :: rest =>
      cases hw : waitCoherence rest with
      | mk a w =>
        have hA : ∀ x ∈ a, waitAct x = true := fun x hx =>
          waitCoherence_acts rest x (by rw [hw]; exact hx)
        cases w with
        | stuck =>
          simp only [runMain, hw, if_true]
          simp only [guardedFrom]
          exact guardedFrom_wait hA false
        | raised rest' =>
          cases cohSafe with
          | false =>
            simp only [runMain, hw, Bool.not_false, Bool.and_true, if_true]
            simp only [guardedFrom, guardedFrom_append_wait hA]
            simpa [guardedFrom] using ih false false rest'
          | true =>
            simp only [runMain, hw, Bool.not_true, Bool.and_false, if_false, if_true]
            simp only [guardedFrom, guardedFrom_append_wait hA]
            rcases runFallback_split rest' with ⟨h1, _⟩ | ⟨ok, h1, _⟩ <;>
              simp [guardedFrom, h1]
        | done rest' =>
          match rest' with
          | [] =>
            simp only [runMain, hw, if_true]
            simp [guardedFrom, guardedFrom_append_wait hA]
          | Ev.conn o :: _ =>
            simp only [runMain, hw, if_true]
            simp [guardedFrom, guardedFrom_append_wait hA]
          | Ev.dr o :: _ =>
            simp only [runMain, hw, if_true]
            simp [guardedFrom, guardedFrom_append_wait hA]
          | Ev.qm r :: _ =>
            simp only [runMain, hw, if_true]
            simp [guardedFrom, guardedFrom_append_wait hA]
          | Ev.ha r :: _ =>
            simp only [runMain, hw, if_true]
            simp [guardedFrom, guardedFrom_append_wait hA]
          | Ev.nm o :: _ =>
            simp only [runMain, hw, if_true]
            simp [guardedFrom, guardedFrom_append_wait hA]
          | Ev.shut true :: _ =>
            simp only [runMain, hw, if_true]
            simp [guardedFrom, guardedFrom_append_wait hA]
          | Ev.shut false :: rest2 =>
            simp only [runMain, hw, if_true, Bool.not_true, Bool.and_false, if_false]
            simp only [guardedFrom, guardedFrom_append_wait hA]
            rcases runFallback_split rest2 with ⟨h1, _⟩ | ⟨ok, h1, _⟩ <;>
              simp [guardedFrom, h1]

/-- Claim C4: with a Coherence cluster and safety never yet confirmed,
every sequence of failing attempts — connect raising, or the safety
wait raising (`domainRuntime()`) — produces exactly a connect attempt
followed by a 10-unit sleep per failure, leaves the run still looping
(`none`), and never invokes the NodeManager fallback, for any number of
consecutive failures (any `fs`) and any sufficient fuel. -/
theorem C4_unbounded_retry (fs : List FailStep) (fuel : Nat) (hlen : fs.length ≤ fuel) :
    runMain true fuel false (failTrace fs)
      = (fs.flatMap (fun _ => [Act.connectA, Act.sleep10]), none) ∧
    ∀ ok : Bool, Act.nmA ok ∉ (runMain true fuel false (failTrace fs)).1 := by
  have heq : ∀ (gs : List FailStep) (n : Nat), gs.length ≤ n →
      runMain true n false (failTrace gs)
        = (gs.flatMap (fun _ => [Act.connectA, Act.sleep10]), none) := by
    intro gs
    induction gs with
    | nil =>
      intro n _
      cases n with
      | zero => rfl
      | succ m => rfl
    | cons f gs ih =>
      intro n hn
      cases n with
      | zero => simp at hn
      | succ m =>
        have hm : gs.length ≤ m := by simpa using hn
        cases f with
        | connFail =>
          have ht : failTrace (FailStep.connFail :: gs) = Ev.conn false :: failTrace gs := by
            simp [failTrace, failEvs]
          rw [ht]
          simp only [runMain, Bool.not_false, Bool.and_true, if_true]
          rw [ih m hm]
          simp
        | drFail =>
          have ht : failTrace (FailStep.drFail :: gs)
              = Ev.conn true :: Ev.dr false :: failTrace gs := by
            simp [failTrace, failEvs]
          rw [ht]
          have hw : waitCoherence (Ev.dr false :: failTrace gs)
              = ([], WaitRes.raised (failTrace gs)) := rfl
          simp only [runMain, hw, Bool.not_false, Bool.and_true, if_true]
          rw [ih m hm]
          simp
  refine ⟨heq fs fuel hlen, ?_⟩
  intro ok hmem
  rw [heq fs fuel hlen] at hmem
  simp at hmem

/-- Witness for C4: two consecutive failures (a connect failure, then a
failure inside the safety wait) with fuel 5. -/
theorem C4_unbounded_retry_witness :
    runMain true 5 false (failTrace [FailStep.connFail, FailStep.drFail])
      = ([Act.connectA, Act.sleep10, Act.connectA, Act.sleep10], none) := by
  have h := (C4_unbounded_retry [FailStep.connFail, FailStep.drFail] 5 (by decide)).1
  simpa using h

theorem lastAct_ne_nil {l : List Act} {x : Act} (h : lastAct l = some x) : l ≠ [] := by
  intro hl
  subst hl
  simp [lastAct] at h

theorem lastAct_cons_of_some {l : List Act} {x : Act} (y : Act) (h : lastAct l = some x) :
    lastAct (y :: l) = some x := by
  rw [lastAct_cons y (lastAct_ne_nil h)]
  exact h

theorem lastAct_append_of_some {l2 : List Act} {x : Act} (l1 : List Act)
    (h : lastAct l2 = some x) : lastAct (l1 ++ l2) = some x := by
  rw [lastAct_append l1 (lastAct_ne_nil h)]
  exact h

theorem nmTerminal_wait {l : List Act} (hl : ∀ x ∈ l, waitAct x = true) :
    nmTerminal l = true := by
  have h := nmTerminal_append_wait hl []
  rwa [List.append_nil] at h

theorem nmTerminal_runMain (cohEx : Bool) (fuel : Nat) :
    ∀ (cs : Bool) (evs : List Ev), nmTerminal (runMain cohEx fuel cs evs).1 = true := by
  induction fuel with
  | zero => intro cs evs; rfl
  | succ fuel ih =>
    intro cs evs
    match evs with
    | [] => rfl
    | Ev.dr o :: rest => rfl
    | Ev.qm r :: rest => rfl
    | Ev.ha r :: rest => rfl
    | Ev.shut o :: rest => rfl
    | Ev.nm o :: rest => rfl
    | Ev.conn false :: rest =>
      cases hcond : cohEx && !cs with
      | true =>
        simp only [runMain, hcond, if_true]
        simpa [nmTerminal] using ih cs rest
      | false =>
        simp only [runMain, hcond, if_false]
        rcases runFallback_split rest with ⟨h1, _⟩ | ⟨ok, h1, _⟩ <;>
          simp [nmTerminal, h1]
    | Ev.conn true :: rest =>
      cases cohEx with
      | true =>
        cases hw : waitCoherence rest with
        | mk a w =>
          have hA : ∀ x ∈ a, waitAct x = true := fun x hx =>
            waitCoherence_acts rest x (by rw [hw]; exact hx)
          cases w with
          | stuck =>
            simp only [runMain, hw, if_true]
            simp only [nmTerminal]
            exact nmTerminal_wait hA
          | raised rest' =>
            cases cs with
            | false =>
              simp only [runMain, hw, Bool.not_false, Bool.and_true, if_true]
              simp only [nmTerminal, nmTerminal_append_wait hA]
              simpa [nmTerminal] using ih false rest'
            | true =>
              simp only [runMain, hw, Bool.not_true, Bool.and_false, if_false, if_true]
              simp only [nmTerminal, nmTerminal_append_wait hA]
              rcases runFallback_split rest' with ⟨h1, _⟩ | ⟨ok, h1, _⟩ <;>
                simp [nmTerminal, h1]
          | done rest' =>
            match rest' with
            | [] =>
              simp only [runMain, hw, if_true]
              simp [nmTerminal, nmTerminal_append_wait hA]
            | Ev.conn o :: _ =>
              simp only [runMain, hw, if_true]
              simp [nmTerminal, nmTerminal_append_wait hA]
            | Ev.dr o :: _ =>
              simp only [runMain, hw, if_true]
              simp [nmTerminal, nmTerminal_append_wait hA]
            | Ev.qm r :: _ =>
              simp only [runMain, hw, if_true]
              simp [nmTerminal, nmTerminal_append_wait hA]
            | Ev.ha r :: _ =>
              simp only [runMain, hw, if_true]
              simp [nmTerminal, nmTerminal_append_wait hA]
            | Ev.nm o :: _ =>
              simp only [runMain, hw, if_true]
              simp [nmTerminal, nmTerminal_append_wait hA]
            | Ev.shut true :: _ =>
              simp only [runMain, hw, if_true]
              simp [nmTerminal, nmTerminal_append_wait hA]
            | Ev.shut false :: rest2 =>
              simp only [runMain, hw, if_true, Bool.not_true, Bool.and_false, if_false]
              simp only [nmTerminal, nmTerminal_append_wait hA]
              rcases runFallback_split rest2 with ⟨h1, _⟩ | ⟨ok, h1, _⟩ <;>
                simp [nmTerminal, h1]
      | false =>
        match rest with
        | [] => rfl
        | Ev.conn o :: _ => rfl
        | Ev.dr o :: _ => rfl
        | Ev.qm r :: _ => rfl
        | Ev.ha r :: _ => rfl
        | Ev.nm o :: _ => rfl
        | Ev.shut true :: _ => rfl
        | Ev.shut false :: rest2 =>
          simp only [runMain, Bool.false_and, if_false]
          rcases runFallback_split rest2 with ⟨h1, _⟩ | ⟨ok, h1, _⟩ <;>
            simp [nmTerminal, h1]

/-- Claim C5: when no data grid exists, an exception in connect or in
the graceful stop goes straight to the NodeManager fallback (one `nmA`
action, then termination with exit code 0 on success and 2 on failure,
no further connect attempt); when a data grid exists and safety has just
been confirmed (`safeA`), a failing graceful stop likewise goes straight
to the fallback; and in every run whatsoever a fallback action is the
final action of the trace — nothing, in particular no connect retry,
ever runs after it. -/
theorem C5_immediate_fallback :
    (∀ (fuel : Nat) (rest : List Ev) (ok : Bool),
      runMain false (fuel + 1) false (Ev.conn false :: Ev.nm ok :: rest)
        = ([Act.connectA, Act.nmA ok], some (if ok then 0 else 2))) ∧
    (∀ (fuel : Nat) (rest : List Ev) (ok : Bool),
      runMain false (fuel + 1) false (Ev.conn true :: Ev.shut false :: Ev.nm ok :: rest)
        = ([Act.connectA, Act.shutA false, Act.nmA ok], some (if ok then 0 else 2))) ∧
    (∀ (fuel : Nat) (pre : List Ev) (names : List String) (bs : List (List Ev × Ev))
        (rest : List Ev) (ok : Bool),
      (∀ e ∈ pre, emptyPassEv e = true) → names ≠ [] → bs.length = names.length →
      goodBlocks bs →
      runMain true (fuel + 1) false
          (Ev.conn true :: Ev.dr true :: (pre ++ Ev.qm (some names) ::
            (blockEvs bs ++ (Ev.shut false :: Ev.nm ok :: rest))))
        = (Act.connectA :: ((pre.flatMap emptyActs ++ Act.queryA :: passActs bs)
            ++ Act.safeA :: Act.shutA false :: [Act.nmA ok]),
           some (if ok then 0 else 2))) ∧
    (∀ (cohEx : Bool) (fuel : Nat) (cs : Bool) (evs : List Ev),
      nmTerminal (runMain cohEx fuel cs evs).1 = true) := by
  refine ⟨?_, ?_, ?_, fun cohEx fuel cs evs => nmTerminal_runMain cohEx fuel cs evs⟩
  · intro fuel rest ok
    cases ok <;> rfl
  · intro fuel rest ok
    cases ok <;> rfl
  · intro fuel pre names bs rest ok hpre hne hlen hgood
    have hw := waitCoherence_pass pre names bs (Ev.shut false :: Ev.nm ok :: rest)
      hpre hne hlen hgood
    simp only [runMain, hw, if_true, Bool.not_true, Bool.and_false, if_false]
    cases ok <;> simp [runFallback]

/-- Witness for C5: one service reporting `None` for its health status,
then a failing graceful stop, then a successful NodeManager kill. -/
theorem C5_immediate_fallback_witness :
    runMain true 1 false
        [Ev.conn true, Ev.dr true, Ev.qm (some ["svcA"]), Ev.ha (some none),
         Ev.shut false, Ev.nm true]
      = ([Act.connectA, Act.queryA, Act.healthA, Act.safeA, Act.shutA false,
          Act.nmA true], some 0) := by
  have h := C5_immediate_fallback.2.2.1 0 [] ["svcA"] [([], Ev.ha (some none))] [] true
    (by decide) (by decide) (by decide) (by unfold goodBlocks; decide)
  exact h.trans (by decide)

/-- Claim C9: every terminating run exits 0 with the final action a
successful graceful shutdown or a successful NodeManager kill, or exits
2 with the final action a failed NodeManager kill — so every path on
which the server was stopped exits with the success status and the
fallback-failure status 2 is distinct; the fallback path itself exits 0
when the kill succeeds and 2 when it fails; and a first-connect graceful
success exits 0. -/
theorem C9_exit_codes :
    (∀ (cohEx : Bool) (fuel : Nat) (cs : Bool) (evs : List Ev) (c : Nat),
      (runMain cohEx fuel cs evs).2 = some c →
      (c = 0 ∧ (lastAct (runMain cohEx fuel cs evs).1 = some (Act.shutA true) ∨
                lastAct (runMain cohEx fuel cs evs).1 = some (Act.nmA true))) ∨
      (c = 2 ∧ lastAct (runMain cohEx fuel cs evs).1 = some (Act.nmA false))) ∧
    (∀ (rest : List Ev) (ok : Bool),
      runFallback (Ev.nm ok :: rest) = ([Act.nmA ok], some (if ok then 0 else 2))) ∧
    (∀ (fuel : Nat) (cs : Bool) (rest : List Ev),
      runMain false (fuel + 1) cs (Ev.conn true :: Ev.shut true :: rest)
        = ([Act.connectA, Act.shutA true], some 0)) := by
  refine ⟨?_, ?_, ?_⟩
  · intro cohEx fuel
    induction fuel with
    | zero =>
      intro cs evs c h
      simp [runMain] at h
    | succ fuel ih =>
      intro cs evs c h
      cases evs with
      | nil => simp [runMain] at h
      | cons e rest =>
        cases e with
        | dr o => simp [runMain] at h
        | qm r => simp [runMain] at h
        | ha r => simp [runMain] at h
        | shut o => simp [runMain] at h
        | nm o => simp [runMain] at h
        | conn ok =>
          cases ok with
          | false =>
            cases hcond : cohEx && !cs with
            | true =>
              simp only [runMain, hcond, if_true] at h ⊢
              rcases ih cs rest c h with ⟨hc, hl⟩ | ⟨hc, hl⟩
              · left
                refine ⟨hc, ?_⟩
                rcases hl with hl | hl
                · exact Or.inl (lastAct_cons_of_some _ (lastAct_cons_of_some _ hl))
                · exact Or.inr (lastAct_cons_of_some _ (lastAct_cons_of_some _ hl))
              · exact Or.inr ⟨hc, lastAct_cons_of_some _ (lastAct_cons_of_some _ hl)⟩
            | false =>
              simp only [runMain, hcond, if_false] at h ⊢
              rcases runFallback_split rest with ⟨h1, h2⟩ | ⟨ok2, h1, h2⟩
              · rw [h2] at h
                simp at h
              · rw [h2] at h
                have hc : c = if ok2 then 0 else 2 := (Option.some.inj h).symm
                rw [h1]
                cases ok2
                · simp at hc
                  subst hc
                  exact Or.inr ⟨rfl, rfl⟩
                · simp at hc
                  subst hc
                  exact Or.inl ⟨rfl, Or.inr rfl⟩
          | true =>
            cases cohEx with
            | true =>
              cases hw : waitCoherence rest with
              | mk a w =>
                cases w with
                | stuck =>
                  simp only [runMain, hw, if_true] at h
                  simp at h
                | raised rest' =>
                  cases cs with
                  | false =>
                    simp only [runMain, hw, Bool.not_false, Bool.and_true, if_true] at h ⊢
                    rcases ih false rest' c h with ⟨hc, hl⟩ | ⟨hc, hl⟩
                    · left
                      refine ⟨hc, ?_⟩
                      rcases hl with hl | hl
                      · exact Or.inl (lastAct_cons_of_some _
                          (lastAct_append_of_some a (lastAct_cons_of_some _ hl)))
                      · exact Or.inr (lastAct_cons_of_some _
                          (lastAct_append_of_some a (lastAct_cons_of_some _ hl)))
                    · exact Or.inr ⟨hc, lastAct_cons_of_some _
                        (lastAct_append_of_some a (lastAct_cons_of_some _ hl))⟩
                  | true =>
                    simp only [runMain, hw, Bool.not_true, Bool.and_false, if_false,
                      if_true] at h ⊢
                    rcases runFallback_split rest' with ⟨h1, h2⟩ | ⟨ok2, h1, h2⟩
                    · rw [h2] at h
                      simp at h
                    · rw [h2] at h
                      have hc : c = if ok2 then 0 else 2 := (Option.some.inj h).symm
                      rw [h1]
                      cases ok2
                      · simp at hc
                        subst hc
                        exact Or.inr ⟨rfl, lastAct_cons_of_some _
                          (lastAct_append_of_some a rfl)⟩
                      · simp at hc
                        subst hc
                        exact Or.inl ⟨rfl, Or.inr (lastAct_cons_of_some _
                          (lastAct_append_of_some a rfl))⟩
                | done rest' =>
                  cases rest' with
                  | nil =>
                    simp only [runMain, hw, if_true] at h
                    simp at h
                  | cons e2 rest2 =>
                    cases e2 with
                    | conn o2 =>
                      simp only [runMain, hw, if_true] at h
                      simp at h
                    | dr o2 =>
                      simp only [runMain, hw, if_true] at h
                      simp at h
                    | qm r2 =>
                      simp only [runMain, hw, if_true] at h
                      simp at h
                    | ha r2 =>
                      simp only [runMain, hw, if_true] at h
                      simp at h
                    | nm o2 =>
                      simp only [runMain, hw, if_true] at h
                      simp at h
                    | shut o2 =>
                      cases o2 with
                      | true =>
                        simp only [runMain, hw, if_true] at h ⊢
                        have hc : c = 0 := (Option.some.inj h).symm
                        subst hc
                        exact Or.inl ⟨rfl, Or.inl (lastAct_cons_of_some _
                          (lastAct_append_of_some a rfl))⟩
                      | false =>
                        simp only [runMain, hw, if_true, Bool.not_true, Bool.and_false,
                          if_false] at h ⊢
                        rcases runFallback_split rest2 with ⟨h1, h2⟩ | ⟨ok2, h1, h2⟩
                        · rw [h2] at h
                          simp at h
                        · rw [h2] at h
                          have hc : c = if ok2 then 0 else 2 := (Option.some.inj h).symm
                          rw [h1]
                          cases ok2
                          · simp at hc
                            subst hc
                            exact Or.inr ⟨rfl, lastAct_cons_of_some _
                              (lastAct_append_of_some a rfl)⟩
                          · simp at hc
                            subst hc
                            exact Or.inl ⟨rfl, Or.inr (lastAct_cons_of_some _
                              (lastAct_append_of_some a rfl))⟩
            | false =>
              cases rest with
              | nil => simp [runMain] at h
              | cons e2 rest2 =>
                cases e2 with
                | conn o2 => simp [runMain] at h
                | dr o2 => simp [runMain] at h
                | qm r2 => simp [runMain] at h
                | ha r2 => simp [runMain] at h
                | nm o2 => simp [runMain] at h
                | shut o2 =>
                  cases o2 with
                  | true =>
                    simp only [runMain] at h ⊢
                    have hc : c = 0 := (Option.some.inj h).symm
                    subst hc
                    exact Or.inl ⟨rfl, Or.inl rfl⟩
                  | false =>
                    simp only [runMain, Bool.false_and, if_false] at h ⊢
                    rcases runFallback_split rest2 with ⟨h1, h2⟩ | ⟨ok2, h1, h2⟩
                    · rw [h2] at h
                      simp at h
                    · rw [h2] at h
                      have hc : c = if ok2 then 0 else 2 := (Option.some.inj h).symm
                      rw [h1]
                      cases ok2
                      · simp at hc
                        subst hc
                        exact Or.inr ⟨rfl, rfl⟩
                      · simp at hc
                        subst hc
                        exact Or.inl ⟨rfl, Or.inr rfl⟩
  · intro rest ok
    cases ok <;> rfl
  · intro fuel cs rest
    rfl

/-- Witness for C9: a no-grid run whose connect fails and whose
NodeManager kill fails, exiting 2 with the failed kill as final action. -/
theorem C9_exit_codes_witness :
    (runMain false 1 false [Ev.conn false, Ev.nm false]).2 = some 2 ∧
    ((2 = 0 ∧ (lastAct (runMain false 1 false [Ev.conn false, Ev.nm false]).1
        = some (Act.shutA true) ∨
      lastAct (runMain false 1 false [Ev.conn false, Ev.nm false]).1
        = some (Act.nmA true))) ∨
    (2 = 2 ∧ lastAct (runMain false 1 false [Ev.conn false, Ev.nm false]).1
        = some (Act.nmA false))) :=
  ⟨by decide, C9_exit_codes.1 false 1 false [Ev.conn false, Ev.nm false] 2 (by decide)⟩

end StopServer
